import Mathlib

/-!
MyClub-ScoreBoard: the shared match state, its clock and its command handlers.

A shallow embedding of `main.go`.  Go strings are `String` (every string of
the program is a source literal, the result of `fmt.Sprintf`, or a string
decoded by `encoding/json`, hence valid UTF-8, i.e. a sequence of Unicode
scalar values).  Go `int` is `Int`, with the 64-bit wrap-around written out
at every multiplication, addition and negation.  Wall-clock instants are
integers (nanoseconds) and every handler that calls `time.Now()` takes the
instant as an argument.

Every handler, and every iteration of `timerLoop`, changes the variables
inside one critical section of `stateMu`; the locals `lastSecond` and
`wasRunning` belong to the goroutine of `timerLoop` alone.  A run of the
process is therefore a sequence of these sections, each a function on the
variables.  The fan-out of `broadcast` to the subscribers' channels is not
modelled; an iteration of the timer loop only records whether it broadcasts.
-/

namespace ScoreBoard

/-! ## Machine integers -/

/-- Largest value of a Go `int` (64 bits). -/
def maxInt64 : Int := 9223372036854775807

/-- Smallest value of a Go `int` (64 bits). -/
def minInt64 : Int := -9223372036854775808

/-- Two's-complement reduction of a mathematical integer to a Go `int`. -/
def wrap64 (x : Int) : Int := (x + 9223372036854775808) % 18446744073709551616 - 9223372036854775808

/-- Go `a * b` on `int`. -/
def imul (a b : Int) : Int := wrap64 (a * b)

/-- Go `a + b` on `int`. -/
def iadd (a b : Int) : Int := wrap64 (a + b)

/-- Go unary `-a` on `int`. -/
def ineg (a : Int) : Int := wrap64 (-a)

/-! ## Library string functions used by the program -/

/-- The runes for which `unicode.IsSpace` holds. -/
def isSpace (c : Char) : Bool :=
  let n := c.toNat
  n = 0x09 || n = 0x0A || n = 0x0B || n = 0x0C || n = 0x0D || n = 0x20 || n = 0x85 || n = 0xA0 ||
  n = 0x1680 || (0x2000 ≤ n && n ≤ 0x200A) || n = 0x2028 || n = 0x2029 || n = 0x202F ||
  n = 0x205F || n = 0x3000

/-- Go `strings.TrimSpace` on the runes of a string. -/
def trimSpaceRunes (cs : List Char) : List Char :=
  ((cs.dropWhile isSpace).reverse.dropWhile isSpace).reverse

/-- Go `strings.TrimSpace`. -/
def TrimSpace (s : String) : String := ⟨trimSpaceRunes s.data⟩

/-- Go `unicode.ToUpper` on one rune: ASCII is computed, the Unicode case
table for the other runes is the parameter `upperTable`. -/
def toUpperRune (upperTable : Char → Char) (c : Char) : Char :=
  if c.toNat < 128 then
    (if 97 ≤ c.toNat ∧ c.toNat ≤ 122 then Char.ofNat (c.toNat - 32) else c)
  else upperTable c

/-- Go `strings.ToUpper`: every rune is mapped by `unicode.ToUpper`. -/
def ToUpper (upperTable : Char → Char) (s : String) : String :=
  ⟨s.data.map (toUpperRune upperTable)⟩

/-- The pairs given to `strings.NewReplacer` in `makeShort`, in source order. -/
def replPairs : List (Char × Char) :=
  [('Á', 'A'), ('Ä', 'A'), ('Å', 'A'), ('Â', 'A'), ('À', 'A'),
   ('Č', 'C'), ('Ć', 'C'), ('Ç', 'C'),
   ('Ď', 'D'),
   ('É', 'E'), ('Ě', 'E'), ('È', 'E'), ('Ë', 'E'), ('Ê', 'E'),
   ('Í', 'I'), ('Ì', 'I'), ('Ï', 'I'), ('Î', 'I'),
   ('Ň', 'N'), ('Ń', 'N'),
   ('Ó', 'O'), ('Ö', 'O'), ('Ô', 'O'), ('Ò', 'O'),
   ('Ř', 'R'),
   ('Š', 'S'), ('Ś', 'S'),
   ('Ť', 'T'),
   ('Ú', 'U'), ('Ů', 'U'), ('Ù', 'U'), ('Ü', 'U'), ('Û', 'U'),
   ('Ý', 'Y'),
   ('Ž', 'Z')]

/-- The replacer applied to one rune: the first pair whose key is the rune. -/
def replRune (c : Char) : Char := (replPairs.lookup c).getD c

/-- The call `repl.Replace(name)`: all keys are single runes, so the replacer
acts rune by rune. -/
def Replace (s : String) : String := ⟨s.data.map replRune⟩

/-- The loop `for _, r := range name` of `makeShort`: append the runes in
`A..Z` to `out` and stop as soon as `out` holds three runes. -/
def collectLetters : List Char → List Char → List Char
  | [], out => out
  | r :: rest, out =>
    if 'A' ≤ r ∧ r ≤ 'Z' then
      (if (out ++ [r]).length = 3 then out ++ [r] else collectLetters rest (out ++ [r]))
    else collectLetters rest out

/-- The loop `for len(out) < 3 { out = append(out, '-') }`. -/
def padDashes (out : List Char) : List Char := out ++ List.replicate (3 - out.length) '-'

/-- Go `makeShort`. -/
def makeShort (upperTable : Char → Char) (name : String) : String :=
  let name := TrimSpace name
  if name = "" then "---"
  else
    let name := ToUpper upperTable name
    let name := Replace name
    ⟨padDashes (collectLetters name.data [])⟩

/-! ## Formatting and parsing the timer string -/

/-- The decimal digit `d` as a rune. -/
def digitChar (d : Nat) : Char := Char.ofNat (48 + d)

/-- Decimal digits of `n`, most significant first, pushed in front of `acc`;
the first argument bounds the number of digits. -/
def decimalAux : Nat → Nat → List Char → List Char
  | 0, _, acc => acc
  | fuel + 1, n, acc =>
    if n / 10 = 0 then digitChar (n % 10) :: acc
    else decimalAux fuel (n / 10) (digitChar (n % 10) :: acc)

/-- Decimal representation of a natural number. -/
def decimal (n : Nat) : List Char := decimalAux (n + 1) n []

/-- Left padding with `'0'` up to `width` runes. -/
def zeroPad (width : Nat) (ds : List Char) : List Char :=
  List.replicate (width - ds.length) '0' ++ ds

/-- The verb `%02d` of `fmt.Sprintf`: zero padding to width 2, where the sign
of a negative number takes one of the two columns. -/
def fmt02d (v : Int) : List Char :=
  if v < 0 then '-' :: zeroPad 1 (decimal (-v).toNat) else zeroPad 2 (decimal v.toNat)

/-- The call `fmt.Sprintf("%02d:%02d", a, b)`. -/
def sprintfTimer (a b : Int) : String := ⟨fmt02d a ++ ':' :: fmt02d b⟩

/-- The expression `fmt.Sprintf("%02d:%02d", elapsedSeconds/60, elapsedSeconds%60)`;
Go division and remainder truncate toward zero. -/
def formatTimer (elapsedSeconds : Int) : String :=
  sprintfTimer (Int.tdiv elapsedSeconds 60) (Int.tmod elapsedSeconds 60)

/-- Go `strings.Split(s, sep)` for a one-rune separator, on runes. -/
def splitRunes (sep : Char) : List Char → List (List Char)
  | [] => [[]]
  | c :: cs =>
    if c = sep then [] :: splitRunes sep cs
    else
      match splitRunes sep cs with
      | [] => [[c]]
      | p :: ps => (c :: p) :: ps

/-- Value of a run of decimal digits, `none` when a rune is not a digit. -/
def digitsValue : List Char → Nat → Option Nat
  | [], acc => some acc
  | c :: cs, acc =>
    if 48 ≤ c.toNat ∧ c.toNat ≤ 57 then digitsValue cs (acc * 10 + (c.toNat - 48)) else none

/-- Unsigned part of `strconv.Atoi`: at least one digit, digits only. -/
def atoiUnsigned (cs : List Char) : Option Nat :=
  match cs with
  | [] => none
  | _ :: _ => digitsValue cs 0

/-- Go `strconv.Atoi`: an optional sign, then decimal digits; `none` stands for
a non-nil error (syntax, or a value outside the 64-bit range). -/
def Atoi (cs : List Char) : Option Int :=
  let signed : Option Int :=
    match cs with
    | '-' :: rest => Option.map (fun n : Nat => -(Int.ofNat n)) (atoiUnsigned rest)
    | '+' :: rest => Option.map Int.ofNat (atoiUnsigned rest)
    | _ => Option.map Int.ofNat (atoiUnsigned cs)
  signed.bind (fun v => if minInt64 ≤ v ∧ v ≤ maxInt64 then some v else none)

/-- Go `parseTimerToSeconds`. -/
def parseTimerToSeconds (timer : String) : Int :=
  match splitRunes ':' timer.data with
  | [p0, p1] =>
    match Atoi p0, Atoi p1 with
    | some m, some s => if m < 0 ∨ s < 0 ∨ s ≥ 60 then 0 else iadd (imul m 60) s
    | _, _ => 0
  | _ => 0

/-! ## `time.Duration.Seconds` and the conversion to whole seconds

`Duration.Seconds` is `float64(sec) + float64(nsec)/1e9` with `sec = d / 1e9`
and `nsec = d % 1e9`.  Both conversions are exact (the operands are below
`2^53`); the quotient and the sum are each rounded once to the nearest
binary64 value, ties to even.  The rounding is computed on natural numbers. -/

/-- Integer nearest to `a / b`, ties to the even integer. -/
def rneDiv (a b : Nat) : Nat :=
  if 2 * (a % b) < b then a / b
  else if b < 2 * (a % b) then a / b + 1
  else if (a / b) % 2 = 0 then a / b else a / b + 1

/-- Search, from `s` upward and for at most `fuel` steps, the first shift `s`
with `q * 2^52 ≤ p * 2^s`, i.e. the scaling that brings `p / q` to a 53-bit
significand. -/
def findShift : Nat → Nat → Nat → Nat → Nat
  | 0, _, _, s => s
  | fuel + 1, p, q, s => if q * 2 ^ 52 ≤ p * 2 ^ s then s else findShift fuel p q (s + 1)

/-- A non-negative binary64 value below `2^53`: `mant / 2^shift`. -/
structure F64 where
  /-- The integer significand. -/
  mant : Nat
  /-- The binary exponent, negated. -/
  shift : Nat
deriving DecidableEq

/-- Round-to-nearest-even of the rational `p / q`, for `0 ≤ p / q < 2^53`:
the significand has 53 bits, and the quantum is never below `2^-1074`
(gradual underflow). -/
def roundF64 (p q : Nat) : F64 :=
  if p = 0 then ⟨0, 0⟩
  else
    let s := findShift 1074 p q 0
    ⟨rneDiv (p * 2 ^ s) q, s⟩

/-- The method `Duration.Seconds` on a non-negative duration of `d` nanoseconds. -/
def durationSeconds (d : Nat) : F64 :=
  let sec := d / 1000000000
  let nsec := d % 1000000000
  let y := roundF64 nsec 1000000000
  roundF64 (sec * 2 ^ y.shift + y.mant) (2 ^ y.shift)

/-- Go `int(x)` on a non-negative float: truncation. -/
def truncF64 (x : F64) : Nat := x.mant / 2 ^ x.shift

/-- The statements `elapsed := d.Seconds(); if elapsed < 0 { elapsed = 0 };
int(elapsed)` on a duration of `d` nanoseconds.  A negative duration has a
negative number of seconds (rounding is symmetric in the sign), hence gives 0. -/
def wholeSeconds (d : Int) : Int :=
  if d ≤ 0 then 0 else (truncF64 (durationSeconds d.toNat) : Nat)

/-! ## Instants -/

/-- A value of `time.Time`: the zero value `time.Time{}` or an instant, in
nanoseconds on the clock read by `time.Now()`. -/
inductive Time where
  | zero : Time
  | instant (ns : Int) : Time
deriving DecidableEq

/-- Largest `time.Duration`. -/
def maxDuration : Int := 9223372036854775807

/-- Smallest `time.Duration`. -/
def minDuration : Int := -9223372036854775808

/-- Go `time.Since(t)` when the clock reads `now`: the difference, saturated
to the range of `time.Duration`; the zero `Time` lies further in the past
than any duration reaches. -/
def since (now : Int) : Time → Int
  | Time.zero => maxDuration
  | Time.instant ns =>
    if now - ns > maxDuration then maxDuration
    else if now - ns < minDuration then minDuration
    else now - ns

/-- The expression `time.Now().Add(-time.Duration(elapsedSeconds) * time.Second)`:
the negation and the product are 64-bit operations. -/
def startInstant (now elapsedSeconds : Int) : Time :=
  Time.instant (now + imul (ineg elapsedSeconds) 1000000000)

/-! ## The shared state -/

/-- Go `Scoreboard`. -/
structure Scoreboard where
  HomeName : String
  HomeLogo : String
  HomeScore : Int
  AwayName : String
  AwayLogo : String
  AwayScore : Int
  Timer : String
  Running : Bool
  HalfLength : Int
  Theme : String
  HomeShort : String
  AwayShort : String
  PrimaryColor : String
  SecondaryColor : String
  SidesFlipped : Bool
  Half : Int
deriving DecidableEq

/-- The package-level variables `state`, `elapsedSeconds`, `startTime`, and
the two locals `lastSecond`, `wasRunning` of the goroutine `timerLoop`. -/
structure Sys where
  state : Scoreboard
  elapsedSeconds : Int
  startTime : Time
  lastSecond : Int
  wasRunning : Bool
deriving DecidableEq

/-- The initial value of `state`. -/
def initialState : Scoreboard :=
  { HomeName := "Domácí", HomeLogo := "", HomeScore := 0,
    AwayName := "Hosté", AwayLogo := "", AwayScore := 0,
    Timer := "00:00", Running := false, HalfLength := 45, Theme := "pill",
    HomeShort := "DOM", AwayShort := "HOS",
    PrimaryColor := "#1e3a8a", SecondaryColor := "#2563eb",
    SidesFlipped := false, Half := 1 }

/-- The variables at process start, `timerLoop` about to make its first tick. -/
def initialSys : Sys :=
  { state := initialState, elapsedSeconds := 0, startTime := Time.zero,
    lastSecond := -1, wasRunning := false }

/-! ## Command handlers

Each handler mutates the variables inside one `stateMu.Lock()` ...
`stateMu.Unlock()` section; the function is that section.  Handlers that
decode a JSON body take the decoded `Scoreboard`; a request whose body does
not decode returns before the lock and changes nothing. -/

/-- The closure `valid` of `updateState`: `len(s) == 3` on the UTF-8 bytes,
and each of the three bytes in `A..Z`. -/
def valid (s : String) : Bool :=
  let bytes := s.data.flatMap String.utf8EncodeChar
  bytes.length = 3 && bytes.all (fun c => !(c.toNat < 65 || c.toNat > 90))

/-- Go `updateState`, after a successful decode of `newState`. -/
def updateState (upperTable : Char → Char) (sys : Sys) (newState : Scoreboard) : Sys :=
  let hs := ToUpper upperTable (TrimSpace newState.HomeShort)
  let as := ToUpper upperTable (TrimSpace newState.AwayShort)
  let st := { sys.state with
    HomeName := newState.HomeName, HomeLogo := newState.HomeLogo,
    AwayName := newState.AwayName, AwayLogo := newState.AwayLogo,
    HomeScore := newState.HomeScore, AwayScore := newState.AwayScore,
    HalfLength := newState.HalfLength, Theme := newState.Theme }
  let st := { st with HomeShort := if valid hs then hs else makeShort upperTable st.HomeName }
  let st := { st with AwayShort := if valid as then as else makeShort upperTable st.AwayName }
  let st := if newState.PrimaryColor ≠ "" then { st with PrimaryColor := newState.PrimaryColor } else st
  let st := if newState.SecondaryColor ≠ "" then { st with SecondaryColor := newState.SecondaryColor } else st
  { sys with state := st }

/-- Go `swapSidesHandler`. -/
def swapSidesHandler (sys : Sys) : Sys :=
  { sys with state := { sys.state with SidesFlipped := !sys.state.SidesFlipped } }

/-- Go `startSecondHalfHandler`, `time.Now()` reading `now`. -/
def startSecondHalfHandler (sys : Sys) (now : Int) : Sys :=
  let st := { sys.state with SidesFlipped := !sys.state.SidesFlipped, Half := 2 }
  let elapsedSeconds :=
    if sys.elapsedSeconds < imul st.HalfLength 60 then imul st.HalfLength 60 else sys.elapsedSeconds
  { sys with
    state := { st with Running := true, Timer := formatTimer elapsedSeconds },
    elapsedSeconds := elapsedSeconds,
    startTime := startInstant now elapsedSeconds }

/-- Go `startTimerHandler`, `time.Now()` reading `now`. -/
def startTimerHandler (sys : Sys) (now : Int) : Sys :=
  let elapsedSeconds :=
    if sys.state.Timer ≠ "" then parseTimerToSeconds sys.state.Timer else sys.elapsedSeconds
  let half := if sys.state.Half ≤ 0 then 1 else sys.state.Half
  { sys with
    state := { sys.state with Half := half, Running := true, Timer := formatTimer elapsedSeconds },
    elapsedSeconds := elapsedSeconds,
    startTime := startInstant now elapsedSeconds }

/-- Go `pauseTimerHandler`, `time.Since` evaluated when the clock reads `now`. -/
def pauseTimerHandler (sys : Sys) (now : Int) : Sys :=
  let elapsedSeconds :=
    if sys.state.Running then wholeSeconds (since now sys.startTime) else sys.elapsedSeconds
  { sys with
    state := { sys.state with Running := false, Timer := formatTimer elapsedSeconds },
    elapsedSeconds := elapsedSeconds }

/-- Go `resetTimerHandler`. -/
def resetTimerHandler (sys : Sys) : Sys :=
  { sys with
    state := { sys.state with Running := false, Timer := "00:00", Half := 1 },
    elapsedSeconds := 0,
    startTime := Time.zero }

/-- The locked section shared by `importHandler` and `loadSavedHandler`:
the decoded record replaces `state`, then the defaults and the clock offset
are set. -/
def replaceState (upperTable : Char → Char) (sys : Sys) (imported : Scoreboard) (now : Int) : Sys :=
  let st := imported
  let st := if st.Half ≤ 0 then { st with Half := 1 } else st
  let st := if TrimSpace st.HomeShort = "" then { st with HomeShort := makeShort upperTable st.HomeName } else st
  let st := if TrimSpace st.AwayShort = "" then { st with AwayShort := makeShort upperTable st.AwayName } else st
  let elapsedSeconds := parseTimerToSeconds st.Timer
  { sys with
    state := st,
    elapsedSeconds := elapsedSeconds,
    startTime := if st.Running then startInstant now elapsedSeconds else Time.zero }

/-- Go `importHandler`, after a successful decode of `imported`. -/
def importHandler (upperTable : Char → Char) (sys : Sys) (imported : Scoreboard) (now : Int) : Sys :=
  replaceState upperTable sys imported now

/-- Go `loadSavedHandler`, after the file was read and decoded to `imported`. -/
def loadSavedHandler (upperTable : Char → Char) (sys : Sys) (imported : Scoreboard) (now : Int) : Sys :=
  replaceState upperTable sys imported now

/-! ## The timer loop -/

/-- The end of the current half in `timerLoop`: `state.HalfLength * 60`, or
`state.HalfLength * 120` from the second half on. -/
def maxSeconds (st : Scoreboard) : Int :=
  if st.Half ≥ 2 then imul st.HalfLength 120 else imul st.HalfLength 60

/-- One iteration of the loop of `timerLoop`, the clock reading `now`; the
boolean tells whether the iteration called `broadcast()`. -/
def timerLoopIter (sys : Sys) (now : Int) : Sys × Bool :=
  if sys.state.Running then
    let sec := wholeSeconds (since now sys.startTime)
    let maxSec := maxSeconds sys.state
    let st := if sec ≥ maxSec then { sys.state with Running := false } else sys.state
    let sec := if sec ≥ maxSec then maxSec else sec
    if sec ≠ sys.lastSecond ∨ !sys.wasRunning then
      ({ sys with
          state := { st with Timer := formatTimer sec },
          elapsedSeconds := sec, lastSecond := sec, wasRunning := true }, true)
    else
      ({ sys with state := st, wasRunning := true }, false)
  else
    ({ sys with wasRunning := false, lastSecond := -1 }, false)

/-- The variables after one tick of the timer loop. -/
def timerTick (sys : Sys) (now : Int) : Sys := (timerLoopIter sys now).1

/-! ## Runs of the system -/

/-- The events that change the variables: the requests served by the
handlers and the ticks of `timerLoop`, each with the clock reading it sees. -/
inductive Event where
  | update (newState : Scoreboard)
  | start (now : Int)
  | pause (now : Int)
  | reset
  | swapSides
  | startSecondHalf (now : Int)
  | importState (imported : Scoreboard) (now : Int)
  | loadSaved (imported : Scoreboard) (now : Int)
  | tick (now : Int)
deriving DecidableEq

/-- The effect of one event. -/
def step (upperTable : Char → Char) (sys : Sys) : Event → Sys
  | Event.update newState => updateState upperTable sys newState
  | Event.start now => startTimerHandler sys now
  | Event.pause now => pauseTimerHandler sys now
  | Event.reset => resetTimerHandler sys
  | Event.swapSides => swapSidesHandler sys
  | Event.startSecondHalf now => startSecondHalfHandler sys now
  | Event.importState imported now => importHandler upperTable sys imported now
  | Event.loadSaved imported now => loadSavedHandler upperTable sys imported now
  | Event.tick now => timerTick sys now

/-- The effect of a sequence of events, first event first. -/
def run (upperTable : Char → Char) (sys : Sys) (events : List Event) : Sys :=
  events.foldl (step upperTable) sys

/-- The states the process can be in: those a sequence of events produces
from the initial variables. -/
def Reachable (upperTable : Char → Char) (sys : Sys) : Prop :=
  ∃ events : List Event, run upperTable initialSys events = sys

/-- The scenario start at instant `t0`, then timer ticks at the instants
`ticks`, then pause at instant `t1`. -/
def startTicksPause (sys : Sys) (t0 : Int) (ticks : List Int) (t1 : Int) : Sys :=
  pauseTimerHandler (ticks.foldl timerTick (startTimerHandler sys t0)) t1

/-! ## Well-formed short codes, in the words of the specification -/

/-- A short code as the specification wants it: exactly 3 characters, each
an upper-case letter `A..Z` or the filler `-`. -/
def isShortCode (s : String) : Bool :=
  s.data.length = 3 && s.data.all (fun c => decide (('A' ≤ c ∧ c ≤ 'Z') ∨ c = '-'))

/-- Exactly three characters, each an upper-case letter `A..Z`. -/
def threeLetters (s : String) : Bool :=
  s.data.length = 3 && s.data.all (fun c => decide ('A' ≤ c ∧ c ≤ 'Z'))

/-- An update payload whose home short code is `ab1` and whose away short
code is ` xyz ` (lower case, surrounded by blanks). -/
def shortCodePayload : Scoreboard :=
  { initialState with HomeName := "Sparta Praha", HomeShort := "ab1", AwayShort := " xyz " }

/-- A snapshot whose home short code is `ab1` and whose away short code is
`TOOLONG`: neither is three letters `A..Z`, neither is blank. -/
def badShortPayload : Scoreboard :=
  { initialState with HomeShort := "ab1", AwayShort := "TOOLONG" }

/-- A snapshot of an older save: no short codes. -/
def noShortPayload : Scoreboard :=
  { initialState with HomeName := "Úpice", HomeShort := "", AwayName := "FK Teplice", AwayShort := "  " }

/-! ## Concrete data used in the evaluations -/

/-- A case table without entries: no rune outside ASCII changes.  The
evaluations below only upper-case ASCII text. -/
def noCaseTable : Char → Char := fun c => c

/-- A snapshot as a client can post it to `/api/import`: the clock shown as
`1:00`, running, with a half of one minute. -/
def oneMinutePayload : Scoreboard :=
  { initialState with Timer := "1:00", Running := true, HalfLength := 1, Half := 1 }

/-- The variables after: start at instant 0, a tick at 60 s, then the import
of `oneMinutePayload` at 60 s. -/
def afterImportAtOneMinute : Sys :=
  run noCaseTable initialSys
    [Event.start 0, Event.tick 60000000000, Event.importState oneMinutePayload 60000000000]

/-- A snapshot like `oneMinutePayload` with the clock shown as `0:59`. -/
def belowMinutePayload : Scoreboard :=
  { initialState with Timer := "0:59", Running := true, HalfLength := 1, Half := 1 }

/-- The variables after: start at instant 0, a tick at 60 s, then the import
of `belowMinutePayload` at 60 s. -/
def afterImportBelowMinute : Sys :=
  run noCaseTable initialSys
    [Event.start 0, Event.tick 60000000000, Event.importState belowMinutePayload 60000000000]

/-- The variables after: start at instant 0 with the default half of 45
minutes, then a tick at 2700 s, which stops the clock at the end of the half. -/
def afterFirstHalf : Sys :=
  run noCaseTable initialSys [Event.start 0, Event.tick 2700000000000]

/-- A snapshot with the clock at 279620 minutes and 16 seconds (`2^24`
seconds), stopped, and a half long enough for the clock to run on. -/
def longClockPayload : Scoreboard :=
  { initialState with Timer := "279620:16", Running := false, HalfLength := 300000 }

/-- The variables after the import of `longClockPayload` at instant 0. -/
def afterLongClockImport : Sys :=
  run noCaseTable initialSys [Event.importState longClockPayload 0]

/-- The variables after: start at instant 0 with the default half of 45
minutes, a tick at 2700 s, which stops the clock at the end of the half, then
a second start at 2700.1 s, before the next tick. -/
def afterRestartAtCap : Sys :=
  run noCaseTable initialSys
    [Event.start 0, Event.tick 2700000000000, Event.start 2700100000000]

/-- An update payload that only shortens the half to one minute. -/
def shortHalfPayload : Scoreboard := { initialState with HalfLength := 1 }

/-- The variables after: start at instant 0, a tick at 60 s, then an update
at 60.1 s that sets the half length to one minute. -/
def afterShortenedHalf : Sys :=
  run noCaseTable initialSys
    [Event.start 0, Event.tick 60000000000, Event.update shortHalfPayload]

/-! ## Theorems -/

set_option maxRecDepth 100000

/-- C1, evaluation at the failing input.  The state `afterImportAtOneMinute` is
reachable and running; at the tick of instant 60.2 s the whole-second elapsed
time (60) has reached the cap (60 = HalfLength*60 in half 1).  The tick sets
`Running` to false but, because the second equals `lastSecond` and
`wasRunning` is set, it takes the branch without commit and without
broadcast: `Timer` stays `1:00`, which is not the formatting `01:00` of the
cap.  From `afterImportBelowMinute`, when the next tick comes one second
later, `elapsedSeconds` stays 59 as well, below the cap 60. -/
theorem C1_tick_at_cap_skips_commit :
    Reachable noCaseTable afterImportAtOneMinute ∧
    afterImportAtOneMinute.state.Running = true ∧
    afterImportAtOneMinute.state.Half = 1 ∧
    maxSeconds afterImportAtOneMinute.state = 60 ∧
    wholeSeconds (since 60200000000 afterImportAtOneMinute.startTime) = 60 ∧
    (timerTick afterImportAtOneMinute 60200000000).state.Running = false ∧
    (timerTick afterImportAtOneMinute 60200000000).elapsedSeconds = 60 ∧
    (timerTick afterImportAtOneMinute 60200000000).state.Timer = "1:00" ∧
    formatTimer 60 = "01:00" ∧
    (timerTick afterImportAtOneMinute 60200000000).state.Timer ≠ formatTimer 60 ∧
    (timerLoopIter afterImportAtOneMinute 60200000000).2 = false ∧
    (Reachable noCaseTable afterImportBelowMinute ∧
      afterImportBelowMinute.state.Running = true ∧
      maxSeconds afterImportBelowMinute.state = 60 ∧
      wholeSeconds (since 61000000000 afterImportBelowMinute.startTime) = 60 ∧
      (timerTick afterImportBelowMinute 61000000000).state.Running = false ∧
      (timerTick afterImportBelowMinute 61000000000).elapsedSeconds = 59 ∧
      (timerTick afterImportBelowMinute 61000000000).state.Timer = "0:59" ∧
      (timerLoopIter afterImportBelowMinute 61000000000).2 = false) := by
  refine ⟨⟨_, rfl⟩, ?_, ?_, ?_, ?_, ?_, ?_, ?_, ?_, ?_, ?_, ⟨_, rfl⟩, ?_⟩ <;> decide

/-- C2.  From every state, `startSecondHalfHandler` gives half 2, a running
clock, `SidesFlipped` negated, `elapsedSeconds` the maximum of its previous
value and the first-half cap `HalfLength*60` (a Go `int` product), hence not
below that cap, and `Timer` the formatting of that value; names, logos,
scores, short codes, colours, theme and `HalfLength` are unchanged.  On the
state reached by a first half of 45 minutes that was stopped by the tick at
2700 s, the result is half 2, running, 2700 elapsed seconds, `45:00`. -/
theorem C2_startSecondHalf (sys : Sys) (now : Int) :
    (startSecondHalfHandler sys now).state.Half = 2 ∧
    (startSecondHalfHandler sys now).state.Running = true ∧
    (startSecondHalfHandler sys now).state.SidesFlipped = !sys.state.SidesFlipped ∧
    (startSecondHalfHandler sys now).elapsedSeconds
      = max sys.elapsedSeconds (imul sys.state.HalfLength 60) ∧
    imul sys.state.HalfLength 60 ≤ (startSecondHalfHandler sys now).elapsedSeconds ∧
    sys.elapsedSeconds ≤ (startSecondHalfHandler sys now).elapsedSeconds ∧
    (startSecondHalfHandler sys now).state.Timer
      = formatTimer (startSecondHalfHandler sys now).elapsedSeconds ∧
    (startSecondHalfHandler sys now).state.HomeName = sys.state.HomeName ∧
    (startSecondHalfHandler sys now).state.AwayName = sys.state.AwayName ∧
    (startSecondHalfHandler sys now).state.HomeLogo = sys.state.HomeLogo ∧
    (startSecondHalfHandler sys now).state.AwayLogo = sys.state.AwayLogo ∧
    (startSecondHalfHandler sys now).state.HomeScore = sys.state.HomeScore ∧
    (startSecondHalfHandler sys now).state.AwayScore = sys.state.AwayScore ∧
    (startSecondHalfHandler sys now).state.HomeShort = sys.state.HomeShort ∧
    (startSecondHalfHandler sys now).state.AwayShort = sys.state.AwayShort ∧
    (startSecondHalfHandler sys now).state.PrimaryColor = sys.state.PrimaryColor ∧
    (startSecondHalfHandler sys now).state.SecondaryColor = sys.state.SecondaryColor ∧
    (startSecondHalfHandler sys now).state.Theme = sys.state.Theme ∧
    (startSecondHalfHandler sys now).state.HalfLength = sys.state.HalfLength ∧
    (afterFirstHalf.state.HalfLength = 45 ∧ afterFirstHalf.elapsedSeconds = 2700 ∧
      afterFirstHalf.state.Running = false ∧ afterFirstHalf.state.Half = 1 ∧
      (startSecondHalfHandler afterFirstHalf 2700100000000).state.Half = 2 ∧
      (startSecondHalfHandler afterFirstHalf 2700100000000).state.Running = true ∧
      (startSecondHalfHandler afterFirstHalf 2700100000000).elapsedSeconds = 2700 ∧
      (startSecondHalfHandler afterFirstHalf 2700100000000).state.Timer = "45:00" ∧
      (startSecondHalfHandler afterFirstHalf 2700100000000).state.SidesFlipped
        = !afterFirstHalf.state.SidesFlipped) := by
  refine ⟨rfl, rfl, rfl, ?_, ?_, ?_, rfl, rfl, rfl, rfl, rfl, rfl, rfl, rfl, rfl, rfl, rfl, rfl,
    rfl, ?_⟩
  · simp only [startSecondHalfHandler]
    split_ifs with h
    · exact (max_eq_right (le_of_lt h)).symm
    · exact (max_eq_left (not_lt.mp h)).symm
  · simp only [startSecondHalfHandler]
    split_ifs with h
    · exact le_refl _
    · exact not_lt.mp h
  · simp only [startSecondHalfHandler]
    split_ifs with h
    · exact le_of_lt h
    · exact le_refl _
  · decide

/-- C6.  `updateState` leaves `Running`, `Timer` and `Half` of the state, and
the clock offset `elapsedSeconds`, `startTime`, as they were, whatever the
decoded payload holds in these or any other fields. -/
theorem C6_update_keeps_clock (upperTable : Char → Char) (sys : Sys) (newState : Scoreboard) :
    (updateState upperTable sys newState).state.Running = sys.state.Running ∧
    (updateState upperTable sys newState).state.Timer = sys.state.Timer ∧
    (updateState upperTable sys newState).state.Half = sys.state.Half ∧
    (updateState upperTable sys newState).elapsedSeconds = sys.elapsedSeconds ∧
    (updateState upperTable sys newState).startTime = sys.startTime := by
  refine ⟨?_, ?_, ?_, rfl, rfl⟩ <;> simp only [updateState] <;> split_ifs <;> rfl

/-- C7.  `swapSidesHandler` negates `SidesFlipped` and leaves every other
field of the state and the clock offset as they were; applying it twice gives
back the original variables. -/
theorem C7_swapSides (sys : Sys) :
    (swapSidesHandler sys).state.SidesFlipped = !sys.state.SidesFlipped ∧
    (swapSidesHandler sys).state.HomeName = sys.state.HomeName ∧
    (swapSidesHandler sys).state.HomeLogo = sys.state.HomeLogo ∧
    (swapSidesHandler sys).state.HomeScore = sys.state.HomeScore ∧
    (swapSidesHandler sys).state.AwayName = sys.state.AwayName ∧
    (swapSidesHandler sys).state.AwayLogo = sys.state.AwayLogo ∧
    (swapSidesHandler sys).state.AwayScore = sys.state.AwayScore ∧
    (swapSidesHandler sys).state.Timer = sys.state.Timer ∧
    (swapSidesHandler sys).state.Running = sys.state.Running ∧
    (swapSidesHandler sys).state.HalfLength = sys.state.HalfLength ∧
    (swapSidesHandler sys).state.Theme = sys.state.Theme ∧
    (swapSidesHandler sys).state.HomeShort = sys.state.HomeShort ∧
    (swapSidesHandler sys).state.AwayShort = sys.state.AwayShort ∧
    (swapSidesHandler sys).state.PrimaryColor = sys.state.PrimaryColor ∧
    (swapSidesHandler sys).state.SecondaryColor = sys.state.SecondaryColor ∧
    (swapSidesHandler sys).state.Half = sys.state.Half ∧
    (swapSidesHandler sys).elapsedSeconds = sys.elapsedSeconds ∧
    (swapSidesHandler sys).startTime = sys.startTime ∧
    swapSidesHandler (swapSidesHandler sys) = sys := by
  refine ⟨rfl, rfl, rfl, rfl, rfl, rfl, rfl, rfl, rfl, rfl, rfl, rfl, rfl, rfl, rfl, rfl, rfl,
    rfl, ?_⟩
  simp [swapSidesHandler]

/-- `updateState` does not touch `Half`. -/
theorem updateState_half (upperTable : Char → Char) (sys : Sys) (newState : Scoreboard) :
    (updateState upperTable sys newState).state.Half = sys.state.Half := by
  simp only [updateState]; split_ifs <;> rfl

/-- The field `Half` after a full replacement: the payload's value, or 1 when
that value is not positive. -/
theorem replaceState_half (upperTable : Char → Char) (sys : Sys) (imported : Scoreboard)
    (now : Int) :
    (replaceState upperTable sys imported now).state.Half
      = if imported.Half ≤ 0 then 1 else imported.Half := by
  simp only [replaceState]; split_ifs <;> rfl

/-- A full replacement gives `Half ≥ 1`. -/
theorem replaceState_half_pos (upperTable : Char → Char) (sys : Sys) (imported : Scoreboard)
    (now : Int) : 1 ≤ (replaceState upperTable sys imported now).state.Half := by
  rw [replaceState_half]; split_ifs with h
  · exact le_refl _
  · omega

/-- Every event keeps `Half ≥ 1`. -/
theorem step_half_pos (upperTable : Char → Char) (sys : Sys) (e : Event)
    (h : 1 ≤ sys.state.Half) : 1 ≤ (step upperTable sys e).state.Half := by
  cases e with
  | update newState =>
    have := (updateState_half upperTable sys newState)
    simp only [step]; rw [this]; exact h
  | start now =>
    simp only [step, startTimerHandler]
    split_ifs with h1
    · exact le_refl _
    · exact h
  | pause now => exact h
  | reset => simp [step, resetTimerHandler]
  | swapSides => exact h
  | startSecondHalf now => simp [step, startSecondHalfHandler]
  | importState imported now => exact replaceState_half_pos upperTable sys imported now
  | loadSaved imported now => exact replaceState_half_pos upperTable sys imported now
  | tick now =>
    simp only [step, timerTick, timerLoopIter]
    split_ifs <;> exact h

/-- An invariant of the events holds in every reachable state. -/
theorem reachable_induction (upperTable : Char → Char) (P : Sys → Prop) (h0 : P initialSys)
    (hstep : ∀ sys e, P sys → P (step upperTable sys e)) :
    ∀ sys, Reachable upperTable sys → P sys := by
  have key : ∀ (events : List Event) (s0 : Sys), P s0 → P (run upperTable s0 events) := by
    intro events
    induction events with
    | nil => intro s0 h; exact h
    | cons e es ih => intro s0 h; exact ih _ (hstep s0 e h)
  rintro sys ⟨events, rfl⟩
  exact key events initialSys h0

/-- C10.  `Half ≥ 1` holds initially, every event (update, start, pause, reset,
swapSides, startSecondHalf, import, load of a saved file, timer tick) keeps
it, so it holds in every reachable state; a replacement by import or by load
whose payload has `Half ≤ 0` leaves `Half = 1`. -/
theorem C10_half_at_least_one (upperTable : Char → Char) :
    1 ≤ initialSys.state.Half ∧
    (∀ sys e, 1 ≤ sys.state.Half → 1 ≤ (step upperTable sys e).state.Half) ∧
    (∀ sys, Reachable upperTable sys → 1 ≤ sys.state.Half) ∧
    (∀ sys imported now, imported.Half ≤ 0 →
      (importHandler upperTable sys imported now).state.Half = 1 ∧
      (loadSavedHandler upperTable sys imported now).state.Half = 1) := by
  refine ⟨by decide, step_half_pos upperTable, ?_, ?_⟩
  · exact reachable_induction upperTable (fun s => 1 ≤ s.state.Half) (by decide)
      (step_half_pos upperTable)
  · intro sys imported now h
    simp only [importHandler, loadSavedHandler, replaceState_half, if_pos h, and_self]

/-- C10 at a payload with `half: 0`: the state after the import is reachable
and has `Half = 1`. -/
theorem C10_half_at_least_one_witness :
    ({ initialState with Half := 0 } : Scoreboard).Half ≤ 0 ∧
    (importHandler noCaseTable initialSys { initialState with Half := 0 } 5).state.Half = 1 ∧
    1 ≤ (run noCaseTable initialSys
      [Event.importState { initialState with Half := 0 } 5, Event.start 7]).state.Half :=
  ⟨by decide,
   ((C10_half_at_least_one noCaseTable).2.2.2 initialSys { initialState with Half := 0 } 5
      (by decide)).1,
   (C10_half_at_least_one noCaseTable).2.2.1 _ ⟨_, rfl⟩⟩

/-! ### Short codes -/

/-- A byte is determined by its value. -/
theorem uint8_ofNat_toNat (x : UInt8) : UInt8.ofNat x.toNat = x := by
  cases x with
  | mk bv =>
    simp only [UInt8.ofNat, UInt8.toNat]
    congr 1
    apply BitVec.eq_of_toNat_eq
    simp

/-- The UTF-8 byte of an ASCII rune is its code. -/
theorem byte_of_ascii (c : Char) (h : c.val ≤ 0x7f) : c.val.toUInt8.toNat = c.toNat := by
  have h' : c.val.toNat ≤ 127 := h
  simp only [UInt32.toUInt8, Char.toNat, Nat.toUInt8, UInt8.ofNat, UInt8.toNat,
    BitVec.toNat_ofNat]
  omega

/-- The lead byte of a two-byte sequence is not a letter. -/
theorem lead2_not_letter :
    ∀ n : Fin 256, ¬ ((UInt8.ofNat n.val &&& 0x1f ||| 0xc0).toNat ≤ 90) := by decide

/-- The lead byte of a three-byte sequence is not a letter. -/
theorem lead3_not_letter :
    ∀ n : Fin 256, ¬ ((UInt8.ofNat n.val &&& 0x0f ||| 0xe0).toNat ≤ 90) := by decide

/-- The lead byte of a four-byte sequence is not a letter. -/
theorem lead4_not_letter :
    ∀ n : Fin 256, ¬ ((UInt8.ofNat n.val &&& 0x07 ||| 0xf0).toNat ≤ 90) := by decide

/-- A rune whose UTF-8 bytes all lie in `A..Z` is one byte long and is a letter. -/
theorem encode_letter_bytes (c : Char)
    (h : (String.utf8EncodeChar c).all (fun b => !(b.toNat < 65 || b.toNat > 90)) = true) :
    (String.utf8EncodeChar c).length = 1 ∧ 65 ≤ c.toNat ∧ c.toNat ≤ 90 := by
  have e : c.toNat = c.val.toNat := rfl
  unfold String.utf8EncodeChar at h ⊢
  simp only
  simp only at h
  split_ifs at h ⊢ with h1 h2 h3
  · refine ⟨rfl, ?_⟩
    have := byte_of_ascii c h1
    have h1' : c.val.toNat ≤ 127 := h1
    simp at h
    omega
  · exfalso
    simp at h
    have := lead2_not_letter ⟨((c.val >>> 6).toUInt8).toNat, ((c.val >>> 6).toUInt8).val.isLt⟩
    rw [uint8_ofNat_toNat] at this
    omega
  · exfalso
    simp at h
    have := lead3_not_letter ⟨((c.val >>> 12).toUInt8).toNat, ((c.val >>> 12).toUInt8).val.isLt⟩
    rw [uint8_ofNat_toNat] at this
    omega
  · exfalso
    simp at h
    have := lead4_not_letter ⟨((c.val >>> 18).toUInt8).toNat, ((c.val >>> 18).toUInt8).val.isLt⟩
    rw [uint8_ofNat_toNat] at this
    omega

/-- A letter `A..Z` is encoded by one byte, which lies in `A..Z`. -/
theorem encode_of_letter (c : Char) (h : 65 ≤ c.toNat ∧ c.toNat ≤ 90) :
    (String.utf8EncodeChar c).length = 1 ∧
    (String.utf8EncodeChar c).all (fun b => !(b.toNat < 65 || b.toNat > 90)) = true := by
  have e : c.toNat = c.val.toNat := rfl
  have h1 : c.val ≤ 0x7f := by
    show c.val.toNat ≤ 127
    omega
  have hb := byte_of_ascii c h1
  unfold String.utf8EncodeChar
  simp only [if_pos h1]
  refine ⟨rfl, ?_⟩
  simp
  omega

/-- Bytes all in `A..Z`: as many bytes as runes, and every rune a letter. -/
theorem bytes_letters (l : List Char)
    (h : (l.flatMap String.utf8EncodeChar).all (fun b => !(b.toNat < 65 || b.toNat > 90)) = true) :
    (l.flatMap String.utf8EncodeChar).length = l.length ∧
    ∀ c ∈ l, 65 ≤ c.toNat ∧ c.toNat ≤ 90 := by
  induction l with
  | nil => simp
  | cons c cs ih =>
    rw [List.flatMap_cons, List.all_append, Bool.and_eq_true] at h
    obtain ⟨h1, h2⟩ := encode_letter_bytes c h.1
    obtain ⟨i1, i2⟩ := ih h.2
    refine ⟨?_, ?_⟩
    · rw [List.flatMap_cons, List.length_append, h1, i1, List.length_cons]; omega
    · intro d hd
      rcases List.mem_cons.mp hd with rfl | hd
      · exact h2
      · exact i2 d hd

/-- Runes all letters: as many bytes as runes, and every byte in `A..Z`. -/
theorem letters_bytes (l : List Char) (h : ∀ c ∈ l, 65 ≤ c.toNat ∧ c.toNat ≤ 90) :
    (l.flatMap String.utf8EncodeChar).length = l.length ∧
    (l.flatMap String.utf8EncodeChar).all (fun b => !(b.toNat < 65 || b.toNat > 90)) = true := by
  induction l with
  | nil => simp
  | cons c cs ih =>
    obtain ⟨h1, h2⟩ := encode_of_letter c (h c (List.mem_cons_self _ _))
    obtain ⟨i1, i2⟩ := ih (fun d hd => h d (List.mem_cons_of_mem _ hd))
    refine ⟨?_, ?_⟩
    · rw [List.flatMap_cons, List.length_append, h1, i1, List.length_cons]; omega
    · rw [List.flatMap_cons, List.all_append, h2, i2]; rfl

/-- The byte test `valid` of `updateState` accepts exactly the strings of
three letters `A..Z`. -/
theorem valid_eq_threeLetters (s : String) : valid s = threeLetters s := by
  rw [Bool.eq_iff_iff]
  simp only [valid, threeLetters, Bool.and_eq_true, decide_eq_true_eq, List.all_eq_true]
  constructor
  · rintro ⟨hlen, hall⟩
    have hall' : (s.data.flatMap String.utf8EncodeChar).all
        (fun b => !(b.toNat < 65 || b.toNat > 90)) = true := List.all_eq_true.mpr hall
    obtain ⟨h1, h2⟩ := bytes_letters s.data hall'
    exact ⟨by omega, fun c hc => h2 c hc⟩
  · rintro ⟨hlen, hall⟩
    obtain ⟨h1, h2⟩ := letters_bytes s.data (fun c hc => hall c hc)
    exact ⟨by omega, List.all_eq_true.mp h2⟩

/-- The loop of `makeShort` returns at most three runes, all letters. -/
theorem collectLetters_spec (rest : List Char) :
    ∀ out : List Char, out.length < 3 → (∀ c ∈ out, 'A' ≤ c ∧ c ≤ 'Z') →
      (collectLetters rest out).length ≤ 3 ∧ ∀ c ∈ collectLetters rest out, 'A' ≤ c ∧ c ≤ 'Z' := by
  induction rest with
  | nil => intro out h1 h2; exact ⟨by simp only [collectLetters]; omega, h2⟩
  | cons r rest ih =>
    intro out h1 h2
    simp only [collectLetters]
    have hmem : ∀ (hr : 'A' ≤ r ∧ r ≤ 'Z'), ∀ c ∈ out ++ [r], 'A' ≤ c ∧ c ≤ 'Z' := by
      intro hr c hc
      rcases List.mem_append.mp hc with hc | hc
      · exact h2 c hc
      · rw [List.mem_singleton.mp hc]; exact hr
    split_ifs with hr h3
    · exact ⟨by omega, hmem hr⟩
    · refine ih (out ++ [r]) ?_ (hmem hr)
      simp only [List.length_append, List.length_singleton] at h3 ⊢
      omega
    · exact ih out h1 h2

/-- The result of `makeShort` is a well-formed short code, for every name. -/
theorem makeShort_isShortCode (upperTable : Char → Char) (name : String) :
    isShortCode (makeShort upperTable name) = true := by
  simp only [makeShort]
  split_ifs with h
  · decide
  · obtain ⟨h1, h2⟩ := collectLetters_spec (Replace (ToUpper upperTable (TrimSpace name))).data []
      (by decide) (by simp)
    simp only [isShortCode, padDashes, Bool.and_eq_true, decide_eq_true_eq, List.all_eq_true,
      List.length_append, List.length_replicate]
    refine ⟨by omega, ?_⟩
    intro c hc
    rcases List.mem_append.mp hc with hc | hc
    · exact Or.inl (h2 c hc)
    · exact Or.inr (List.eq_of_mem_replicate hc)

/-- Three letters form a well-formed short code. -/
theorem isShortCode_of_threeLetters (s : String) (h : threeLetters s = true) :
    isShortCode s = true := by
  simp only [threeLetters, isShortCode, Bool.and_eq_true, decide_eq_true_eq,
    List.all_eq_true] at h ⊢
  exact ⟨h.1, fun c hc => Or.inl (h.2 c hc)⟩

/-- The home short code stored by `updateState`. -/
theorem updateState_homeShort (upperTable : Char → Char) (sys : Sys) (newState : Scoreboard) :
    (updateState upperTable sys newState).state.HomeShort
      = if valid (ToUpper upperTable (TrimSpace newState.HomeShort))
        then ToUpper upperTable (TrimSpace newState.HomeShort)
        else makeShort upperTable newState.HomeName := by
  simp only [updateState]; split_ifs <;> rfl

/-- The away short code stored by `updateState`. -/
theorem updateState_awayShort (upperTable : Char → Char) (sys : Sys) (newState : Scoreboard) :
    (updateState upperTable sys newState).state.AwayShort
      = if valid (ToUpper upperTable (TrimSpace newState.AwayShort))
        then ToUpper upperTable (TrimSpace newState.AwayShort)
        else makeShort upperTable newState.AwayName := by
  simp only [updateState]; split_ifs <;> rfl

/-- The short codes after a full replacement: regenerated from the name when
the payload's code is blank, else the payload's code. -/
theorem replaceState_shorts (upperTable : Char → Char) (sys : Sys) (imported : Scoreboard)
    (now : Int) :
    (replaceState upperTable sys imported now).state.HomeShort
      = (if TrimSpace imported.HomeShort = "" then makeShort upperTable imported.HomeName
         else imported.HomeShort) ∧
    (replaceState upperTable sys imported now).state.AwayShort
      = (if TrimSpace imported.AwayShort = "" then makeShort upperTable imported.AwayName
         else imported.AwayShort) := by
  constructor <;> simp only [replaceState] <;> split_ifs <;> rfl

/-- C8.  After `updateState` both short codes are exactly 3 characters, each a
letter `A..Z` or the filler `-`: the payload's code, trimmed and upper-cased,
is stored when it is exactly three letters `A..Z`, and otherwise the stored
code is `makeShort` of the payload's team name; `makeShort` returns a
well-formed code for every name.  With home code `ab1` and away code ` xyz `
the stored codes are `SPA` (from the name `Sparta Praha`) and `XYZ`. -/
theorem C8_update_short_codes (upperTable : Char → Char) (sys : Sys) (newState : Scoreboard) :
    isShortCode (updateState upperTable sys newState).state.HomeShort = true ∧
    isShortCode (updateState upperTable sys newState).state.AwayShort = true ∧
    (updateState upperTable sys newState).state.HomeShort
      = (if threeLetters (ToUpper upperTable (TrimSpace newState.HomeShort)) = true
         then ToUpper upperTable (TrimSpace newState.HomeShort)
         else makeShort upperTable newState.HomeName) ∧
    (updateState upperTable sys newState).state.AwayShort
      = (if threeLetters (ToUpper upperTable (TrimSpace newState.AwayShort)) = true
         then ToUpper upperTable (TrimSpace newState.AwayShort)
         else makeShort upperTable newState.AwayName) ∧
    (∀ name : String, isShortCode (makeShort upperTable name) = true) ∧
    (threeLetters (ToUpper noCaseTable (TrimSpace "ab1")) = false ∧
      threeLetters (ToUpper noCaseTable (TrimSpace "")) = false ∧
      threeLetters (ToUpper noCaseTable (TrimSpace "abcd")) = false ∧
      (updateState noCaseTable initialSys shortCodePayload).state.HomeShort = "SPA" ∧
      (updateState noCaseTable initialSys shortCodePayload).state.AwayShort = "XYZ") := by
  have hh := updateState_homeShort upperTable sys newState
  have ha := updateState_awayShort upperTable sys newState
  rw [valid_eq_threeLetters] at hh ha
  refine ⟨?_, ?_, hh, ha, makeShort_isShortCode upperTable, by decide⟩
  · rw [hh]
    split_ifs with h
    · exact isShortCode_of_threeLetters _ h
    · exact makeShort_isShortCode upperTable _
  · rw [ha]
    split_ifs with h
    · exact isShortCode_of_threeLetters _ h
    · exact makeShort_isShortCode upperTable _

/-- C9 as stated fails: the import of a snapshot with home short code `ab1`
and away short code `TOOLONG` keeps both codes; they are not well-formed short
codes and are not `makeShort` of the names (`DOM`, `HOS`).  The load of a
saved file runs the same code. -/
theorem C9_import_keeps_invalid_short :
    threeLetters badShortPayload.HomeShort = false ∧
    threeLetters badShortPayload.AwayShort = false ∧
    (importHandler noCaseTable initialSys badShortPayload 0).state.HomeShort = "ab1" ∧
    (importHandler noCaseTable initialSys badShortPayload 0).state.AwayShort = "TOOLONG" ∧
    isShortCode (importHandler noCaseTable initialSys badShortPayload 0).state.HomeShort = false ∧
    isShortCode (importHandler noCaseTable initialSys badShortPayload 0).state.AwayShort = false ∧
    makeShort noCaseTable badShortPayload.HomeName = "DOM" ∧
    makeShort noCaseTable badShortPayload.AwayName = "HOS" ∧
    (loadSavedHandler noCaseTable initialSys badShortPayload 0).state.HomeShort = "ab1" ∧
    (loadSavedHandler noCaseTable initialSys badShortPayload 0).state.AwayShort = "TOOLONG" := by
  decide

/-- C9, amended.  After a full replacement by `importHandler` or
`loadSavedHandler`, a short code that is absent or blank in the payload (empty
after `TrimSpace`) is replaced by `makeShort` of the corresponding name, which
is exactly 3 characters from `A..Z` plus the filler; a short code that is not
blank is kept as the payload gives it. -/
theorem C9_replace_short_codes (upperTable : Char → Char) (sys : Sys) (imported : Scoreboard)
    (now : Int) :
    (importHandler upperTable sys imported now).state.HomeShort
      = (if TrimSpace imported.HomeShort = "" then makeShort upperTable imported.HomeName
         else imported.HomeShort) ∧
    (importHandler upperTable sys imported now).state.AwayShort
      = (if TrimSpace imported.AwayShort = "" then makeShort upperTable imported.AwayName
         else imported.AwayShort) ∧
    (TrimSpace imported.HomeShort = "" →
      isShortCode (importHandler upperTable sys imported now).state.HomeShort = true) ∧
    (TrimSpace imported.AwayShort = "" →
      isShortCode (importHandler upperTable sys imported now).state.AwayShort = true) ∧
    loadSavedHandler upperTable sys imported now = importHandler upperTable sys imported now := by
  obtain ⟨hh, ha⟩ := replaceState_shorts upperTable sys imported now
  refine ⟨hh, ha, ?_, ?_, rfl⟩
  · intro h
    simp only [importHandler]
    rw [hh, if_pos h]
    exact makeShort_isShortCode upperTable _
  · intro h
    simp only [importHandler]
    rw [ha, if_pos h]
    exact makeShort_isShortCode upperTable _

/-- C9, amended, on a snapshot without short codes: the codes become `UPI`
and `FKT`, both well formed. -/
theorem C9_replace_short_codes_witness :
    TrimSpace noShortPayload.HomeShort = "" ∧ TrimSpace noShortPayload.AwayShort = "" ∧
    (importHandler noCaseTable initialSys noShortPayload 0).state.HomeShort = "UPI" ∧
    (importHandler noCaseTable initialSys noShortPayload 0).state.AwayShort = "FKT" ∧
    isShortCode (importHandler noCaseTable initialSys noShortPayload 0).state.HomeShort = true ∧
    isShortCode (importHandler noCaseTable initialSys noShortPayload 0).state.AwayShort = true :=
  ⟨by decide, by decide, by decide, by decide,
   (C9_replace_short_codes noCaseTable initialSys noShortPayload 0).2.2.1 (by decide),
   (C9_replace_short_codes noCaseTable initialSys noShortPayload 0).2.2.2.1 (by decide)⟩

/-! ### The timer string -/

/-- The code of a decimal digit. -/
theorem digitChar_toNat (d : Nat) (h : d < 10) : (digitChar d).toNat = 48 + d := by
  interval_cases d <;> rfl

/-- Reading the digits written by `decimalAux` continues the value read so far. -/
theorem digitsValue_decimalAux (fuel : Nat) :
    ∀ n : Nat, n < fuel → ∃ L : Nat, ∀ (acc : List Char) (a : Nat),
      digitsValue (decimalAux fuel n acc) a = digitsValue acc (a * 10 ^ L + n) := by
  induction fuel with
  | zero => intro n h; omega
  | succ fuel ih =>
    intro n h
    have hd : (digitChar (n % 10)).toNat = 48 + n % 10 := digitChar_toNat _ (Nat.mod_lt _ (by omega))
    by_cases h0 : n / 10 = 0
    · refine ⟨1, fun acc a => ?_⟩
      simp only [decimalAux, if_pos h0, digitsValue, hd]
      rw [if_pos (by omega)]
      congr 1
      omega
    · obtain ⟨L, hL⟩ := ih (n / 10) (by omega)
      refine ⟨L + 1, fun acc a => ?_⟩
      simp only [decimalAux, if_neg h0]
      rw [hL, digitsValue, hd, if_pos (by omega)]
      congr 1
      rw [pow_succ]
      have := Nat.div_add_mod n 10
      have e : a * (10 ^ L * 10) = (a * 10 ^ L) * 10 := by ring
      rw [e]
      omega

/-- The runes written by `decimalAux` are decimal digits. -/
theorem decimalAux_mem (fuel : Nat) :
    ∀ (n : Nat) (acc : List Char), ∀ c ∈ decimalAux fuel n acc,
      c ∈ acc ∨ (48 ≤ c.toNat ∧ c.toNat ≤ 57) := by
  induction fuel with
  | zero => intro n acc c hc; exact Or.inl hc
  | succ fuel ih =>
    intro n acc c hc
    have hd : (digitChar (n % 10)).toNat = 48 + n % 10 := digitChar_toNat _ (Nat.mod_lt _ (by omega))
    have hlt : n % 10 < 10 := Nat.mod_lt _ (by omega)
    simp only [decimalAux] at hc
    split_ifs at hc with h0
    · rcases List.mem_cons.mp hc with rfl | hc
      · right; omega
      · exact Or.inl hc
    · rcases ih _ _ c hc with hc | hc
      · rcases List.mem_cons.mp hc with rfl | hc
        · right; omega
        · exact Or.inl hc
      · exact Or.inr hc

/-- The representation written by `decimalAux` is not empty. -/
theorem decimalAux_ne_nil (fuel : Nat) :
    ∀ (n : Nat) (acc : List Char), decimalAux (fuel + 1) n acc ≠ [] := by
  induction fuel with
  | zero =>
    intro n acc
    simp only [decimalAux]
    split_ifs <;> simp
  | succ fuel ih =>
    intro n acc
    rw [decimalAux]
    split_ifs
    · simp
    · exact ih _ _

/-- Digits of the `%02d` formatting of a natural number: not empty, all
decimal digits, and their value is the number. -/
theorem fmt02d_nat (k : Nat) :
    fmt02d (k : Int) ≠ [] ∧ (∀ c ∈ fmt02d (k : Int), 48 ≤ c.toNat ∧ c.toNat ≤ 57) ∧
    digitsValue (fmt02d (k : Int)) 0 = some k := by
  have hneg : ¬ ((k : Int) < 0) := by omega
  simp only [fmt02d, if_neg hneg, Int.toNat_ofNat, zeroPad, decimal]
  obtain ⟨L, hL⟩ := digitsValue_decimalAux (k + 1) k (by omega)
  have hmem := decimalAux_mem (k + 1) k []
  have hne := decimalAux_ne_nil k k []
  have hzero : ∀ (m : Nat) (ds : List Char), digitsValue (List.replicate m '0' ++ ds) 0
      = digitsValue ds 0 := by
    intro m ds
    induction m with
    | zero => rfl
    | succ m ih =>
      rw [List.replicate_succ, List.cons_append, digitsValue, if_pos (by decide)]
      exact ih
  refine ⟨?_, ?_, ?_⟩
  · intro h
    exact hne (List.append_eq_nil.mp h).2
  · intro c hc
    rcases List.mem_append.mp hc with hc | hc
    · rw [List.eq_of_mem_replicate hc]; decide
    · rcases hmem c hc with h | h
      · exact absurd h (List.not_mem_nil c)
      · exact h
  · rw [hzero, hL]
    simp [digitsValue]

/-- On a non-empty run of decimal digits whose value fits a Go `int`,
`strconv.Atoi` returns the value. -/
theorem Atoi_digits (ds : List Char) (k : Nat) (hne : ds ≠ [])
    (hd : ∀ c ∈ ds, 48 ≤ c.toNat ∧ c.toNat ≤ 57) (hv : digitsValue ds 0 = some k)
    (hk : (k : Int) ≤ maxInt64) : Atoi ds = some (k : Int) := by
  cases ds with
  | nil => exact absurd rfl hne
  | cons c cs =>
    have hc := hd c (List.mem_cons_self _ _)
    have h1 : c ≠ '-' := by rintro rfl; exact absurd hc.1 (by decide)
    have h2 : c ≠ '+' := by rintro rfl; exact absurd hc.1 (by decide)
    have hu : atoiUnsigned (c :: cs) = some k := by simpa only [atoiUnsigned] using hv
    have hr : minInt64 ≤ (k : Int) ∧ (k : Int) ≤ maxInt64 := by
      refine ⟨?_, hk⟩
      simp only [minInt64]; omega
    unfold Atoi
    split
    · rename_i rest heq
      exact absurd (List.cons.inj heq).1 h1
    · rename_i rest heq
      exact absurd (List.cons.inj heq).1 h2
    · simp only [hu, Option.map_some', Option.some_bind, Int.ofNat_eq_coe, if_pos hr]

/-- A string without the separator is one part. -/
theorem splitRunes_none (sep : Char) (l : List Char) (h : sep ∉ l) : splitRunes sep l = [l] := by
  induction l with
  | nil => rfl
  | cons c cs ih =>
    have hc : c ≠ sep := fun e => h (e ▸ List.mem_cons_self _ _)
    have hcs : sep ∉ cs := fun e => h (List.mem_cons_of_mem _ e)
    simp only [splitRunes, if_neg hc, ih hcs]

/-- Two parts without the separator, joined by it, split into the two parts. -/
theorem splitRunes_two (sep : Char) (a b : List Char) (ha : sep ∉ a) (hb : sep ∉ b) :
    splitRunes sep (a ++ sep :: b) = [a, b] := by
  induction a with
  | nil => simp only [List.nil_append, splitRunes, if_true, splitRunes_none sep b hb]
  | cons c cs ih =>
    have hc : c ≠ sep := fun e => ha (e ▸ List.mem_cons_self _ _)
    have hcs : sep ∉ cs := fun e => ha (List.mem_cons_of_mem _ e)
    show splitRunes sep (c :: (cs ++ sep :: b)) = [c :: cs, b]
    simp only [splitRunes, if_neg hc, ih hcs]

/-- A value in the 64-bit range is not changed by the reduction. -/
theorem wrap64_of_inRange (x : Int) (h1 : minInt64 ≤ x) (h2 : x ≤ maxInt64) : wrap64 x = x := by
  simp only [minInt64, maxInt64] at h1 h2
  simp only [wrap64]
  omega

/-- Parsing the formatting of a number of seconds gives the number back,
for every non-negative Go `int`. -/
theorem parse_format (n : Int) (h0 : 0 ≤ n) (h1 : n ≤ maxInt64) :
    parseTimerToSeconds (formatTimer n) = n := by
  obtain ⟨k, rfl⟩ := Int.eq_ofNat_of_zero_le h0
  have e1 : Int.tdiv (k : Int) 60 = ((k / 60 : Nat) : Int) := by
    rw [Int.tdiv_eq_ediv (by omega) (by omega)]; rfl
  have e2 : Int.tmod (k : Int) 60 = ((k % 60 : Nat) : Int) := by
    rw [Int.tmod_eq_emod (by omega) (by omega)]; rfl
  obtain ⟨a1, a2, a3⟩ := fmt02d_nat (k / 60)
  obtain ⟨b1, b2, b3⟩ := fmt02d_nat (k % 60)
  have hsep : ∀ l : List Char, (∀ c ∈ l, 48 ≤ c.toNat ∧ c.toNat ≤ 57) → ':' ∉ l := by
    intro l hl hmem
    exact absurd (hl _ hmem).2 (by decide)
  simp only [maxInt64] at h1
  have hA := Atoi_digits _ _ a1 a2 a3 (by simp only [maxInt64]; omega)
  have hB := Atoi_digits _ _ b1 b2 b3 (by simp only [maxInt64]; omega)
  simp only [parseTimerToSeconds, formatTimer, sprintfTimer, e1, e2,
    splitRunes_two ':' _ _ (hsep _ a2) (hsep _ b2), hA, hB]
  have hlt : k % 60 < 60 := Nat.mod_lt _ (by omega)
  have hdm := Nat.div_add_mod k 60
  rw [if_neg (by omega)]
  simp only [iadd, imul]
  rw [wrap64_of_inRange (((k / 60 : Nat) : Int) * 60) (by simp only [minInt64]; omega)
    (by simp only [maxInt64]; omega)]
  rw [wrap64_of_inRange _ (by simp only [minInt64]; omega) (by simp only [maxInt64]; omega)]
  omega

/-- The timer string written by `fmt.Sprintf` is never empty. -/
theorem formatTimer_ne_empty (e : Int) : formatTimer e ≠ "" := by
  intro h
  have h' := congrArg String.data h
  simp [formatTimer, sprintfTimer] at h'

/-- C4.  For minutes ≥ 0 and 0 ≤ seconds < 60, with n = minutes*60 + seconds a
Go `int` (n ≤ maxInt64): `parseTimerToSeconds` applied to the `%02d:%02d`
formatting of (n/60, n%60) returns n, where n/60 is minutes and n%60 is
seconds; no bound on the number of minute digits is needed. -/
theorem C4_parse_format_roundtrip (minutes seconds : Int) (hm : 0 ≤ minutes)
    (hs0 : 0 ≤ seconds) (hs : seconds < 60) (hn : minutes * 60 + seconds ≤ maxInt64) :
    parseTimerToSeconds (sprintfTimer (Int.tdiv (minutes * 60 + seconds) 60)
      (Int.tmod (minutes * 60 + seconds) 60)) = minutes * 60 + seconds ∧
    Int.tdiv (minutes * 60 + seconds) 60 = minutes ∧
    Int.tmod (minutes * 60 + seconds) 60 = seconds ∧
    parseTimerToSeconds (sprintfTimer minutes seconds) = minutes * 60 + seconds := by
  have h0 : 0 ≤ minutes * 60 + seconds := by omega
  have e1 : Int.tdiv (minutes * 60 + seconds) 60 = minutes := by
    rw [Int.tdiv_eq_ediv h0 (by omega)]; omega
  have e2 : Int.tmod (minutes * 60 + seconds) 60 = seconds := by
    rw [Int.tmod_eq_emod h0 (by omega)]; omega
  have key := parse_format (minutes * 60 + seconds) h0 hn
  simp only [formatTimer] at key
  refine ⟨key, e1, e2, ?_⟩
  rw [e1, e2] at key
  exact key

/-- C4 at 100 minutes and 5 seconds: the string is `100:05` and parses to 6005. -/
theorem C4_parse_format_roundtrip_witness :
    sprintfTimer 100 5 = "100:05" ∧ parseTimerToSeconds (sprintfTimer 100 5) = 100 * 60 + 5 :=
  ⟨by decide,
   (C4_parse_format_roundtrip 100 5 (by decide) (by decide) (by decide) (by decide)).2.2.2⟩

/-! ### Whole seconds of a duration -/

/-- The nearest integer is at most half a unit above the quotient. -/
theorem rneDiv_upper (a b : Nat) (hb : 0 < b) : 2 * (rneDiv a b * b) ≤ 2 * a + b := by
  have h1 := Nat.div_add_mod a b
  have h2 := Nat.mod_lt a hb
  have h3 : (a / b + 1) * b = a / b * b + b := by ring
  have h4 : b * (a / b) = a / b * b := by ring
  simp only [rneDiv]
  split_ifs <;> omega

/-- The nearest integer is at most half a unit below the quotient. -/
theorem rneDiv_lower (a b : Nat) (hb : 0 < b) : 2 * a ≤ 2 * (rneDiv a b * b) + b := by
  have h1 := Nat.div_add_mod a b
  have h2 := Nat.mod_lt a hb
  have h3 : (a / b + 1) * b = a / b * b + b := by ring
  have h4 : b * (a / b) = a / b * b := by ring
  simp only [rneDiv]
  split_ifs <;> omega

/-- The search ends on a shift that reaches 53 bits, or on the last shift. -/
theorem findShift_found (fuel : Nat) :
    ∀ (p q s : Nat), q * 2 ^ 52 ≤ p * 2 ^ findShift fuel p q s ∨ findShift fuel p q s = s + fuel := by
  induction fuel with
  | zero => intro p q s; right; rfl
  | succ fuel ih =>
    intro p q s
    simp only [findShift]
    split_ifs with h
    · exact Or.inl h
    · rcases ih p q (s + 1) with h1 | h1
      · exact Or.inl h1
      · right; omega

/-- The significand and the shift computed by `roundF64`. -/
theorem roundF64_spec (p q : Nat) (hq : 0 < q) :
    (roundF64 p q).mant = rneDiv (p * 2 ^ (roundF64 p q).shift) q ∧
    ((p = 0 ∧ (roundF64 p q).shift = 0) ∨ q * 2 ^ 52 ≤ p * 2 ^ (roundF64 p q).shift ∨
      (roundF64 p q).shift = 1074) := by
  by_cases hp : p = 0
  · subst hp
    have e : roundF64 0 q = ⟨0, 0⟩ := by simp only [roundF64, if_true]
    rw [e]
    refine ⟨?_, Or.inl ⟨rfl, rfl⟩⟩
    simp [rneDiv, hq]
  · have e : roundF64 p q = ⟨rneDiv (p * 2 ^ findShift 1074 p q 0) q, findShift 1074 p q 0⟩ := by
      simp only [roundF64, if_neg hp]
    rw [e]
    refine ⟨rfl, Or.inr ?_⟩
    rcases findShift_found 1074 p q 0 with h | h
    · exact Or.inl h
    · right
      show findShift 1074 p q 0 = 1074
      omega

/-- The fraction `nsec / 1e9`, rounded, stays below `1 - 2^-30`. -/
theorem fraction_bound (nsec : Nat) (h : nsec < 1000000000) :
    (roundF64 nsec 1000000000).mant * 2 ^ 30
      < (2 ^ 30 - 1) * 2 ^ (roundF64 nsec 1000000000).shift := by
  obtain ⟨hm, hs⟩ := roundF64_spec nsec 1000000000 (by omega)
  have hup := rneDiv_upper (nsec * 2 ^ (roundF64 nsec 1000000000).shift) 1000000000 (by omega)
  rw [← hm] at hup
  generalize (roundF64 nsec 1000000000).mant = m1 at *
  generalize (roundF64 nsec 1000000000).shift = s1 at *
  have hX : nsec * 2 ^ s1 ≤ 999999999 * 2 ^ s1 := Nat.mul_le_mul_right _ (by omega)
  have hA : 0 < 2 ^ s1 := Nat.pow_pos (by omega)
  rcases hs with ⟨h0, hs0⟩ | hs | hs
  · subst h0 hs0
    simp at hup ⊢
    omega
  · have : 52 < s1 := by
      by_contra hc
      have : 2 ^ s1 ≤ 2 ^ 52 := Nat.pow_le_pow_right (by omega) (by omega)
      have : nsec * 2 ^ s1 ≤ nsec * 2 ^ 52 := Nat.mul_le_mul_left _ this
      omega
    have hA53 : 2 ^ 53 ≤ 2 ^ s1 := Nat.pow_le_pow_right (by omega) (by omega)
    generalize 2 ^ s1 = A at *
    generalize nsec * A = X at *
    omega
  · have hA53 : 2 ^ 53 ≤ 2 ^ s1 := Nat.pow_le_pow_right (by omega) (by omega)
    generalize 2 ^ s1 = A at *
    generalize nsec * A = X at *
    omega

/-- The sum of a whole number of seconds and a rounded fraction below
`1 - 2^-30`, rounded and truncated: the whole number, or one more; and
exactly the whole number when it is below `2^24`. -/
theorem trunc_sum (sec m1 s1 : Nat) (hY : m1 * 2 ^ 30 < (2 ^ 30 - 1) * 2 ^ s1) :
    sec ≤ truncF64 (roundF64 (sec * 2 ^ s1 + m1) (2 ^ s1)) ∧
    truncF64 (roundF64 (sec * 2 ^ s1 + m1) (2 ^ s1)) ≤ sec + 1 ∧
    (sec < 2 ^ 24 → truncF64 (roundF64 (sec * 2 ^ s1 + m1) (2 ^ s1)) = sec) := by
  have hA : 0 < 2 ^ s1 := Nat.pow_pos (by omega)
  obtain ⟨hm, hs⟩ := roundF64_spec (sec * 2 ^ s1 + m1) (2 ^ s1) hA
  have hup := rneDiv_upper ((sec * 2 ^ s1 + m1) * 2 ^ (roundF64 (sec * 2 ^ s1 + m1) (2 ^ s1)).shift)
    (2 ^ s1) hA
  have hlo := rneDiv_lower ((sec * 2 ^ s1 + m1) * 2 ^ (roundF64 (sec * 2 ^ s1 + m1) (2 ^ s1)).shift)
    (2 ^ s1) hA
  rw [← hm] at hup hlo
  simp only [truncF64]
  generalize (roundF64 (sec * 2 ^ s1 + m1) (2 ^ s1)).mant = m2 at *
  generalize (roundF64 (sec * 2 ^ s1 + m1) (2 ^ s1)).shift = s2 at *
  have hB : 0 < 2 ^ s2 := Nat.pow_pos (by omega)
  have hYB : m1 * 2 ^ 30 * 2 ^ s2 < (2 ^ 30 - 1) * 2 ^ s1 * 2 ^ s2 :=
    Nat.mul_lt_mul_of_pos_right hY hB
  have hAU : 2 ^ s1 * 1 ≤ 2 ^ s1 * 2 ^ s2 := Nat.mul_le_mul_left _ hB
  have e1 : (sec * 2 ^ s1 + m1) * 2 ^ s2 = sec * (2 ^ s1 * 2 ^ s2) + m1 * 2 ^ s2 := by ring
  have e2 : m1 * 2 ^ 30 * 2 ^ s2 = 2 ^ 30 * (m1 * 2 ^ s2) := by ring
  have e3 : (2 ^ 30 - 1) * 2 ^ s1 * 2 ^ s2 = (2 ^ 30 - 1) * (2 ^ s1 * 2 ^ s2) := by ring
  rw [e1] at hup hlo hs
  rw [e2, e3] at hYB
  have lower : sec * 2 ^ s2 ≤ m2 := by
    by_contra hc
    have h1 : (m2 + 1) * 2 ^ s1 ≤ sec * 2 ^ s2 * 2 ^ s1 := Nat.mul_le_mul_right _ (by omega)
    have e4 : sec * 2 ^ s2 * 2 ^ s1 = sec * (2 ^ s1 * 2 ^ s2) := by ring
    have e5 : (m2 + 1) * 2 ^ s1 = m2 * 2 ^ s1 + 2 ^ s1 := by ring
    rw [e4, e5] at h1
    generalize sec * (2 ^ s1 * 2 ^ s2) = T at *
    generalize m2 * 2 ^ s1 = W at *
    generalize m1 * 2 ^ s2 = V at *
    omega
  have upper : m2 < (sec + 2) * 2 ^ s2 := by
    by_contra hc
    have h1 : (sec + 2) * 2 ^ s2 * 2 ^ s1 ≤ m2 * 2 ^ s1 := Nat.mul_le_mul_right _ (by omega)
    have e4 : (sec + 2) * 2 ^ s2 * 2 ^ s1 = sec * (2 ^ s1 * 2 ^ s2) + 2 * (2 ^ s1 * 2 ^ s2) := by
      ring
    rw [e4] at h1
    generalize sec * (2 ^ s1 * 2 ^ s2) = T at *
    generalize m2 * 2 ^ s1 = W at *
    generalize m1 * 2 ^ s2 = V at *
    generalize 2 ^ s1 * 2 ^ s2 = U at *
    omega
  refine ⟨(Nat.le_div_iff_mul_le hB).mpr lower, ?_, ?_⟩
  · exact Nat.lt_succ_iff.mp ((Nat.div_lt_iff_lt_mul hB).mpr upper)
  · intro hsec
    have fromB29 : 2 ^ 29 * 2 ^ s1 ≤ 2 ^ s1 * 2 ^ s2 → m2 < (sec + 1) * 2 ^ s2 := by
      intro hB29
      by_contra hc
      have h1 : (sec + 1) * 2 ^ s2 * 2 ^ s1 ≤ m2 * 2 ^ s1 := Nat.mul_le_mul_right _ (by omega)
      have e4 : (sec + 1) * 2 ^ s2 * 2 ^ s1 = sec * (2 ^ s1 * 2 ^ s2) + 2 ^ s1 * 2 ^ s2 := by
        ring
      rw [e4] at h1
      generalize sec * (2 ^ s1 * 2 ^ s2) = T at *
      generalize m2 * 2 ^ s1 = W at *
      generalize m1 * 2 ^ s2 = V at *
      generalize 2 ^ s1 * 2 ^ s2 = U at *
      generalize 2 ^ s1 = A at *
      omega
    have ofShift : 29 ≤ s2 → 2 ^ 29 * 2 ^ s1 ≤ 2 ^ s1 * 2 ^ s2 := by
      intro h29
      have := Nat.mul_le_mul_left (2 ^ s1) (Nat.pow_le_pow_right (by omega : 0 < 2) h29)
      rw [Nat.mul_comm (2 ^ s1) (2 ^ 29)] at this
      exact this
    have upper2 : m2 < (sec + 1) * 2 ^ s2 := by
      rcases hs with ⟨h0, hs0⟩ | hs | hs
      · subst hs0
        have hsec0 : sec * 2 ^ s1 = 0 := by omega
        have hm1 : m1 = 0 := by omega
        rcases Nat.mul_eq_zero.mp hsec0 with h | h
        · subst h hm1
          by_contra hc
          have h1 : 1 * 2 ^ s1 ≤ m2 * 2 ^ s1 := Nat.mul_le_mul_right _ (by omega)
          simp only [Nat.zero_mul, Nat.add_zero, Nat.mul_zero, Nat.zero_add] at hup
          generalize m2 * 2 ^ s1 = W at *
          generalize 2 ^ s1 = A at *
          omega
        · omega
      · apply fromB29
        apply ofShift
        by_contra hc
        have hB28 : 2 ^ s1 * 2 ^ s2 ≤ 2 ^ s1 * 2 ^ 28 :=
          Nat.mul_le_mul_left _ (Nat.pow_le_pow_right (by omega) (by omega))
        have hT : sec * (2 ^ s1 * 2 ^ s2) ≤ (2 ^ 24 - 1) * (2 ^ s1 * 2 ^ s2) :=
          Nat.mul_le_mul_right _ (by omega)
        have e6 : 2 ^ s1 * 2 ^ 52 = 2 ^ 24 * (2 ^ s1 * 2 ^ 28) := by ring
        rw [e6] at hs
        generalize sec * (2 ^ s1 * 2 ^ s2) = T at *
        generalize m1 * 2 ^ s2 = V at *
        generalize 2 ^ s1 * 2 ^ s2 = U at *
        generalize 2 ^ s1 * 2 ^ 28 = A28 at *
        omega
      · exact fromB29 (ofShift (by omega))
    exact Nat.le_antisymm (Nat.lt_succ_iff.mp ((Nat.div_lt_iff_lt_mul hB).mpr upper2))
      ((Nat.le_div_iff_mul_le hB).mpr lower)

/-- The whole seconds of a non-negative duration `d`, as the program computes
them through `float64`: the integer quotient `d / 1e9` or one more, and
exactly the quotient when it is below `2^24`. -/
theorem wholeSeconds_bounds (d : Int) (h0 : 0 ≤ d) :
    d / 1000000000 ≤ wholeSeconds d ∧ wholeSeconds d ≤ d / 1000000000 + 1 ∧
    (d / 1000000000 < 2 ^ 24 → wholeSeconds d = d / 1000000000) := by
  obtain ⟨k, rfl⟩ := Int.eq_ofNat_of_zero_le h0
  by_cases hk : k = 0
  · subst hk
    refine ⟨by decide, by decide, fun _ => by decide⟩
  · have hpos : ¬ ((k : Int) ≤ 0) := by omega
    have hY := fraction_bound (k % 1000000000) (Nat.mod_lt _ (by omega))
    obtain ⟨h1, h2, h3⟩ := trunc_sum (k / 1000000000) _ _ hY
    have hq : (k : Int) / 1000000000 = ((k / 1000000000 : Nat) : Int) := rfl
    simp only [wholeSeconds, if_neg hpos, Int.toNat_ofNat, durationSeconds, hq]
    refine ⟨by exact_mod_cast h1, by exact_mod_cast h2, ?_⟩
    intro hlt
    have hlt' : k / 1000000000 < 2 ^ 24 := by exact_mod_cast hlt
    exact_mod_cast h3 hlt'

/-! ### Start, ticks, pause -/

/-- `updateState` does not touch the timer fields and the clock offset. -/
theorem updateState_clock (upperTable : Char → Char) (sys : Sys) (newState : Scoreboard) :
    (updateState upperTable sys newState).state.Running = sys.state.Running ∧
    (updateState upperTable sys newState).state.Timer = sys.state.Timer ∧
    (updateState upperTable sys newState).elapsedSeconds = sys.elapsedSeconds ∧
    (updateState upperTable sys newState).startTime = sys.startTime := by
  refine ⟨?_, ?_, rfl, rfl⟩ <;> simp only [updateState] <;> split_ifs <;> rfl

/-- The timer string and the offset after a full replacement. -/
theorem replaceState_timer (upperTable : Char → Char) (sys : Sys) (imported : Scoreboard)
    (now : Int) :
    (replaceState upperTable sys imported now).state.Timer = imported.Timer ∧
    (replaceState upperTable sys imported now).elapsedSeconds
      = parseTimerToSeconds imported.Timer := by
  constructor <;> simp only [replaceState] <;> split_ifs <;> rfl

/-- In every reachable state an empty timer string goes with zero elapsed
seconds: only a replacement can store an empty string, and it parses to 0. -/
theorem reachable_empty_timer (upperTable : Char → Char) (sys : Sys)
    (h : Reachable upperTable sys) : sys.state.Timer = "" → sys.elapsedSeconds = 0 := by
  refine reachable_induction upperTable (fun s => s.state.Timer = "" → s.elapsedSeconds = 0)
    (by decide) ?_ sys h
  intro s e ih
  cases e with
  | update newState =>
    obtain ⟨_, h2, h3, _⟩ := updateState_clock upperTable s newState
    simp only [step]; rw [h2, h3]; exact ih
  | start now => intro h; exact absurd h (formatTimer_ne_empty _)
  | pause now => intro h; exact absurd h (formatTimer_ne_empty _)
  | reset => intro _; rfl
  | swapSides => exact ih
  | startSecondHalf now => intro h; exact absurd h (formatTimer_ne_empty _)
  | importState imported now =>
    obtain ⟨h1, h2⟩ := replaceState_timer upperTable s imported now
    simp only [step, importHandler]; rw [h1, h2]
    intro h; rw [h]; decide
  | loadSaved imported now =>
    obtain ⟨h1, h2⟩ := replaceState_timer upperTable s imported now
    simp only [step, loadSavedHandler]; rw [h1, h2]
    intro h; rw [h]; decide
  | tick now =>
    simp only [step, timerTick, timerLoopIter]
    split_ifs <;> first
      | exact ih
      | (intro h; exact absurd h (formatTimer_ne_empty _))

/-- A tick never changes `startTime`. -/
theorem timerTick_startTime (sys : Sys) (now : Int) :
    (timerTick sys now).startTime = sys.startTime := by
  simp only [timerTick, timerLoopIter]
  split_ifs <;> rfl

/-- Ticks never change `startTime`. -/
theorem ticks_startTime (ticks : List Int) :
    ∀ sys : Sys, (ticks.foldl timerTick sys).startTime = sys.startTime := by
  induction ticks with
  | nil => intro sys; rfl
  | cons t ts ih => intro sys; rw [List.foldl_cons, ih, timerTick_startTime]

/-- The duration read by `time.Since` at instant `t1`, when the clock was
started at instant `t0` with an offset of `e0` seconds, as long as it fits
`time.Duration`. -/
theorem since_startInstant (t0 t1 e0 : Int) (he0 : 0 ≤ e0) (ht : t0 ≤ t1)
    (hfit : e0 * 1000000000 + (t1 - t0) ≤ maxDuration) :
    since t1 (startInstant t0 e0) = (t1 - t0) + e0 * 1000000000 := by
  simp only [maxDuration] at hfit
  have h1 : ineg e0 = -e0 := by
    simp only [ineg]
    exact wrap64_of_inRange _ (by simp only [minInt64]; omega) (by simp only [maxInt64]; omega)
  have h2 : imul (-e0) 1000000000 = -(e0 * 1000000000) := by
    simp only [imul]
    rw [wrap64_of_inRange _ (by simp only [minInt64]; omega) (by simp only [maxInt64]; omega)]
    ring
  simp only [startInstant, since, h1, h2, maxDuration, minDuration]
  split_ifs <;> omega

/-- The variables after start, ticks and pause, when the clock still runs at
the pause. -/
theorem startTicksPause_eq (upperTable : Char → Char) (sys : Sys) (t0 t1 : Int)
    (ticks : List Int) (hreach : Reachable upperTable sys)
    (hrun : (ticks.foldl timerTick (startTimerHandler sys t0)).state.Running = true) :
    (startTicksPause sys t0 ticks t1).state.Running = false ∧
    (startTicksPause sys t0 ticks t1).state.Timer
      = formatTimer (startTicksPause sys t0 ticks t1).elapsedSeconds ∧
    (startTicksPause sys t0 ticks t1).elapsedSeconds
      = wholeSeconds (since t1 (startInstant t0 (parseTimerToSeconds sys.state.Timer))) := by
  have hst : (ticks.foldl timerTick (startTimerHandler sys t0)).startTime
      = startInstant t0 (parseTimerToSeconds sys.state.Timer) := by
    rw [ticks_startTime]
    simp only [startTimerHandler]
    by_cases h : sys.state.Timer = ""
    · have h0 := reachable_empty_timer upperTable sys hreach h
      have hp : parseTimerToSeconds sys.state.Timer = 0 := by rw [h]; decide
      simp only [ne_eq, h, not_true_eq_false, if_false, h0]
      rw [← h, hp]
    · simp only [ne_eq, h, not_false_eq_true, if_true]
  refine ⟨rfl, rfl, ?_⟩
  simp only [startTicksPause, pauseTimerHandler, hrun, if_true, hst]

/-- C3, amended.  In a reachable state whose timer string parses to `e0 ≥ 0`
seconds, start at instant `t0`, then any timer ticks none of which stopped the
clock, then pause at `t1 ≥ t0` (the duration fitting `time.Duration`): after
the pause `Running` is false, `Timer` is the formatting of the committed
`elapsedSeconds`, and `elapsedSeconds` is `e0` plus the whole seconds of
`t1 - t0`, or one more (so within one second of the true elapsed time); it is
exactly `e0` plus the whole seconds of `t1 - t0` when that sum is below `2^24`. -/
theorem C3_start_pause_elapsed (upperTable : Char → Char) (sys : Sys) (t0 t1 : Int)
    (ticks : List Int) (hreach : Reachable upperTable sys)
    (he0 : 0 ≤ parseTimerToSeconds sys.state.Timer) (ht : t0 ≤ t1)
    (hfit : parseTimerToSeconds sys.state.Timer * 1000000000 + (t1 - t0) ≤ maxDuration)
    (hrun : (ticks.foldl timerTick (startTimerHandler sys t0)).state.Running = true) :
    (startTicksPause sys t0 ticks t1).state.Running = false ∧
    (startTicksPause sys t0 ticks t1).state.Timer
      = formatTimer (startTicksPause sys t0 ticks t1).elapsedSeconds ∧
    parseTimerToSeconds sys.state.Timer + (t1 - t0) / 1000000000
      ≤ (startTicksPause sys t0 ticks t1).elapsedSeconds ∧
    (startTicksPause sys t0 ticks t1).elapsedSeconds
      ≤ parseTimerToSeconds sys.state.Timer + (t1 - t0) / 1000000000 + 1 ∧
    (parseTimerToSeconds sys.state.Timer + (t1 - t0) / 1000000000 < 2 ^ 24 →
      (startTicksPause sys t0 ticks t1).elapsedSeconds
        = parseTimerToSeconds sys.state.Timer + (t1 - t0) / 1000000000 ∧
      (startTicksPause sys t0 ticks t1).state.Timer
        = formatTimer (parseTimerToSeconds sys.state.Timer + (t1 - t0) / 1000000000)) := by
  obtain ⟨h1, h2, h3⟩ := startTicksPause_eq upperTable sys t0 t1 ticks hreach hrun
  rw [since_startInstant t0 t1 _ he0 ht hfit] at h3
  have hq : ((t1 - t0) + parseTimerToSeconds sys.state.Timer * 1000000000) / 1000000000
      = parseTimerToSeconds sys.state.Timer + (t1 - t0) / 1000000000 := by
    rw [Int.add_mul_ediv_right _ _ (by omega)]; omega
  obtain ⟨b1, b2, b3⟩ := wholeSeconds_bounds
    ((t1 - t0) + parseTimerToSeconds sys.state.Timer * 1000000000) (by omega)
  rw [hq] at b1 b2 b3
  rw [← h3] at b1 b2 b3
  refine ⟨h1, h2, b1, b2, fun hlt => ?_⟩
  have := b3 hlt
  exact ⟨this, by rw [h2, this]⟩

/-- C3, amended, from process start: start at 5 s, ticks at 5.2 s and 6.2 s,
pause at 6.5 s; one second is committed and shown as `00:01`. -/
theorem C3_start_pause_elapsed_witness :
    (startTicksPause initialSys 5000000000 [5200000000, 6200000000] 6500000000).state.Running
      = false ∧
    (startTicksPause initialSys 5000000000 [5200000000, 6200000000] 6500000000).elapsedSeconds
      = 1 ∧
    (startTicksPause initialSys 5000000000 [5200000000, 6200000000] 6500000000).state.Timer
      = "00:01" := by
  have h := C3_start_pause_elapsed noCaseTable initialSys 5000000000 6500000000
    [5200000000, 6200000000] ⟨[], rfl⟩ (by decide) (by decide) (by decide) (by decide)
  obtain ⟨h1, _, _, _, h5⟩ := h
  obtain ⟨h6, h7⟩ := h5 (by decide)
  refine ⟨h1, ?_, ?_⟩
  · rw [h6]; decide
  · rw [h7]; decide

/-- C3 as stated fails.  The state after the import of a stopped clock at
`279620:16` is reachable and its timer string parses to `e0 = 2^24` seconds.
Start at instant 0, ticks every 200 ms (the clock still runs after them),
pause at 999999999 ns: the whole seconds of `t1 - t0` are 0, yet the committed
`elapsedSeconds` is `2^24 + 1`, shown as `279620:17`, because
`Duration.Seconds` rounds 16777216.999999999 to the `float64` 16777217. -/
theorem C3_pause_rounds_up :
    Reachable noCaseTable afterLongClockImport ∧
    parseTimerToSeconds afterLongClockImport.state.Timer = 16777216 ∧
    (0 : Int) ≤ 999999999 ∧
    ((999999999 : Int) - 0) / 1000000000 = 0 ∧
    (List.foldl timerTick (startTimerHandler afterLongClockImport 0)
      [200000000, 400000000, 600000000, 800000000]).state.Running = true ∧
    (startTicksPause afterLongClockImport 0
      [200000000, 400000000, 600000000, 800000000] 999999999).state.Running = false ∧
    (startTicksPause afterLongClockImport 0
      [200000000, 400000000, 600000000, 800000000] 999999999).elapsedSeconds = 16777217 ∧
    (startTicksPause afterLongClockImport 0
      [200000000, 400000000, 600000000, 800000000] 999999999).elapsedSeconds
      ≠ parseTimerToSeconds afterLongClockImport.state.Timer
          + ((999999999 : Int) - 0) / 1000000000 ∧
    (startTicksPause afterLongClockImport 0
      [200000000, 400000000, 600000000, 800000000] 999999999).state.Timer = "279620:17" := by
  refine ⟨⟨_, rfl⟩, ?_⟩
  decide

/-! ### The tick at the end of a half -/

/-- A tick that finds the clock running with the whole-second elapsed time at
or above the cap stops the clock and keeps `Half`; when the tick commits (it
then broadcasts), `elapsedSeconds` is the cap and `Timer` its formatting.
Nothing is said of `elapsedSeconds` and `Timer` after a tick that skips the
commit. -/
theorem timerTick_at_cap (sys : Sys) (now : Int) (hrun : sys.state.Running = true)
    (hcap : maxSeconds sys.state ≤ wholeSeconds (since now sys.startTime)) :
    (timerTick sys now).state.Running = false ∧
    (timerTick sys now).state.Half = sys.state.Half ∧
    ((timerLoopIter sys now).2 = true →
      (timerTick sys now).elapsedSeconds = maxSeconds sys.state ∧
      (timerTick sys now).state.Timer = formatTimer (maxSeconds sys.state)) := by
  have hge : wholeSeconds (since now sys.startTime) ≥ maxSeconds sys.state := hcap
  simp only [timerTick, timerLoopIter, hrun, if_true, hge]
  split_ifs
  · exact ⟨rfl, rfl, fun _ => ⟨rfl, rfl⟩⟩
  · refine ⟨rfl, rfl, fun h => ?_⟩
    exact absurd h (by decide)

/-! ### Ticks without broadcast -/

/-- What a tick that does not broadcast keeps: the clock offset
`elapsedSeconds`, `startTime`, and every field of the state other than
`Running`; and `Running` too, unless the tick found the clock running with
the whole-second elapsed time at or above the cap. -/
theorem timerTick_silent (sys : Sys) (now : Int) (h : (timerLoopIter sys now).2 = false) :
    (timerTick sys now).elapsedSeconds = sys.elapsedSeconds ∧
    (timerTick sys now).startTime = sys.startTime ∧
    { (timerTick sys now).state with Running := sys.state.Running } = sys.state ∧
    (¬ (sys.state.Running = true ∧
        maxSeconds sys.state ≤ wholeSeconds (since now sys.startTime)) →
      (timerTick sys now).state = sys.state) := by
  simp only [timerTick, timerLoopIter] at h ⊢
  by_cases h1 : sys.state.Running = true
  · by_cases h2 : wholeSeconds (since now sys.startTime) ≥ maxSeconds sys.state
    · simp only [if_pos h1, if_pos h2] at h ⊢
      split_ifs at h ⊢
      exact ⟨rfl, rfl, rfl, fun hn => absurd ⟨h1, h2⟩ hn⟩
    · simp only [if_pos h1, if_neg h2] at h ⊢
      split_ifs at h ⊢
      exact ⟨rfl, rfl, rfl, fun _ => rfl⟩
  · simp only [if_neg h1] at h ⊢
    exact ⟨trivial, trivial, trivial, fun _ => trivial⟩

/-- C11, evaluation at the failing input.  The state `afterRestartAtCap` is
reachable: the half ended at 2700 s (`lastSecond = 2700`, `wasRunning` set by
that tick) and the clock was started again at 2700.1 s, which published
`Running = true`.  The tick at 2700.2 s finds the whole-second elapsed time
2700 at the cap 2700, sets `Running` to false, and does not broadcast: the
state after the tick differs from the state before it, and the change is left
unpublished.  `Timer` and `elapsedSeconds` are unchanged.  The same happens
from `afterShortenedHalf`, where an update brought the cap down to the second
already committed. -/
theorem C11_silent_tick_stops_clock :
    Reachable noCaseTable afterRestartAtCap ∧
    afterRestartAtCap.lastSecond = 2700 ∧
    afterRestartAtCap.wasRunning = true ∧
    afterRestartAtCap.state.Running = true ∧
    maxSeconds afterRestartAtCap.state = 2700 ∧
    wholeSeconds (since 2700200000000 afterRestartAtCap.startTime) = 2700 ∧
    (timerLoopIter afterRestartAtCap 2700200000000).2 = false ∧
    (timerTick afterRestartAtCap 2700200000000).state.Running = false ∧
    (timerTick afterRestartAtCap 2700200000000).state ≠ afterRestartAtCap.state ∧
    (timerTick afterRestartAtCap 2700200000000).state.Timer = afterRestartAtCap.state.Timer ∧
    (timerTick afterRestartAtCap 2700200000000).elapsedSeconds
      = afterRestartAtCap.elapsedSeconds ∧
    (Reachable noCaseTable afterShortenedHalf ∧
      afterShortenedHalf.state.Running = true ∧
      maxSeconds afterShortenedHalf.state = 60 ∧
      wholeSeconds (since 60200000000 afterShortenedHalf.startTime) = 60 ∧
      (timerLoopIter afterShortenedHalf 60200000000).2 = false ∧
      (timerTick afterShortenedHalf 60200000000).state.Running = false ∧
      (timerTick afterShortenedHalf 60200000000).state ≠ afterShortenedHalf.state) := by
  refine ⟨⟨_, rfl⟩, ?_, ?_, ?_, ?_, ?_, ?_, ?_, ?_, ?_, ?_, ⟨_, rfl⟩, ?_⟩ <;> decide

end ScoreBoard
